import Mathlib

/-!
Verification of the data-access layer of the dev-events application:
time normalization, slug generation, the Event and Booking pre-save
transformations (`src/database/booking.model.ts`), and the cached
database-connection helper (`src/lib/mongodb.ts`), shallowly embedded
as executable Lean functions.
-/

deriving instance DecidableEq for Except

namespace DevEvents

/-- ASCII whitespace class: models the characters relevant to the JS
`String.prototype.trim` and the regex class `\s` for the inputs handled
here (space, tab, LF, VT, FF, CR). -/
def isSpace (c : Char) : Bool :=
  c = ' ' || c = '\t' || c = '\n' || c = '\r' || c = Char.ofNat 11 || c = Char.ofNat 12

/-- ASCII lower-casing of a single character, as `toLowerCase` acts on the
character range that the grammars below can accept. -/
def asciiLower (c : Char) : Char :=
  if 'A' ≤ c ∧ c ≤ 'Z' then Char.ofNat (c.toNat + 32) else c

/-- Numeric value of a decimal digit character. -/
def digitVal (c : Char) : Nat := c.toNat - 48

/-- Trim whitespace from both ends of a character list
(`String.prototype.trim`). -/
def trimChars (l : List Char) : List Char :=
  ((l.dropWhile isSpace).reverse.dropWhile isSpace).reverse

/-- `input.trim().toLowerCase()` from `normalizeTime` (booking.model.ts:104). -/
def canonTime (s : String) : List Char :=
  (trimChars s.data).map asciiLower

/-- Match of the anchored regex `^(\d{1,2}):(\d{2})$` (booking.model.ts:107),
returning the parsed (hour, minute) pair on success. -/
def match24 : List Char → Option (Nat × Nat)
  | [a, b, c, d] =>
    if a.isDigit && b = ':' && c.isDigit && d.isDigit then
      some (digitVal a, 10 * digitVal c + digitVal d)
    else none
  | [a, b, c, d, e] =>
    if a.isDigit && b.isDigit && c = ':' && d.isDigit && e.isDigit then
      some (10 * digitVal a + digitVal b, 10 * digitVal d + digitVal e)
    else none
  | _ => none

/-- Match of the trailing `\s*(am|pm)$` of the 12-hour regex: consume
whitespace, then require a final `am` or `pm`; `true` means pm. -/
def amPmTail : List Char → Option Bool
  | ['a', 'm'] => some false
  | ['p', 'm'] => some true
  | c :: rest => if isSpace c then amPmTail rest else none
  | [] => none

/-- Match of the part of `^(\d{1,2})(?::(\d{2}))?\s*(am|pm)$` after the hour
digits: an optional `:MM` group (minute defaults to 0 when absent, as in
booking.model.ts:119), then whitespace and the meridiem. -/
def afterHour (hh : Nat) : List Char → Option (Nat × Nat × Bool)
  | ':' :: c :: d :: rest =>
    if c.isDigit && d.isDigit then
      (amPmTail rest).map (fun pm => (hh, 10 * digitVal c + digitVal d, pm))
    else none
  | ':' :: _ => none
  | rest => (amPmTail rest).map (fun pm => (hh, 0, pm))

/-- Match of the anchored regex `^(\d{1,2})(?::(\d{2}))?\s*(am|pm)$`
(booking.model.ts:116), returning (hour, minute, isPm). -/
def match12 : List Char → Option (Nat × Nat × Bool)
  | a :: b :: rest =>
    if a.isDigit then
      if b.isDigit then afterHour (10 * digitVal a + digitVal b) rest
      else afterHour (digitVal a) (b :: rest)
    else none
  | _ => none

/-- 12-hour to 24-hour conversion (booking.model.ts:122-123):
pm with hour ≠ 12 adds 12; am with hour 12 becomes 0. -/
def to24 (hh : Nat) (pm : Bool) : Nat :=
  if pm && hh ≠ 12 then hh + 12
  else if !pm && hh = 12 then 0
  else hh

/-- `String(n).padStart(2, '0')` for the two-digit range (n < 100) that
`normalizeTime` can produce. -/
def pad2 (n : Nat) : List Char :=
  if n < 10 then ['0', Char.ofNat (48 + n)]
  else [Char.ofNat (48 + n / 10), Char.ofNat (48 + n % 10)]

/-- The output template of `normalizeTime`: zero-padded `HH:MM`. -/
def timeStr (hh mm : Nat) : String :=
  ⟨pad2 hh ++ ':' :: pad2 mm⟩

/-- `normalizeTime` (booking.model.ts:103-128): try the 24-hour grammar,
then the 12-hour grammar; range-check the matched numbers; errors model the
thrown `Invalid time` and `Unrecognized time format` exceptions. -/
def normalizeTime (input : String) : Except String String :=
  match match24 (canonTime input) with
  | some (hh, mm) =>
    if hh > 23 || mm > 59 then .error "Invalid time"
    else .ok (timeStr hh mm)
  | none =>
    match match12 (canonTime input) with
    | some (hh, mm, pm) =>
      if hh < 1 || hh > 12 || mm > 59 then .error "Invalid time"
      else .ok (timeStr (to24 hh pm) mm)
    | none => .error "Unrecognized time format"

/-- Characters inside the regex class `[a-z0-9]`. -/
def isAlnumLower (c : Char) : Bool :=
  ('a' ≤ c && c ≤ 'z') || ('0' ≤ c && c ≤ '9')

/-- The characters a finished slug may contain: `[a-z0-9]` or `-`. -/
def slugChar (c : Char) : Bool :=
  isAlnumLower c || c = '-'

/-- `.replace(/[^a-z0-9]+/g, '-')` (booking.model.ts:92): each maximal run
of characters outside `[a-z0-9]` becomes a single hyphen. The flag records
whether we are currently inside such a run. -/
def replHyph : List Char → Bool → List Char
  | [], _ => []
  | c :: rest, inRun =>
    if isAlnumLower c then c :: replHyph rest false
    else if inRun then replHyph rest true
    else '-' :: replHyph rest true

/-- `.replace(/^-+|-+$/g, '')` (booking.model.ts:94): strip leading and
trailing hyphens. -/
def stripHyph (l : List Char) : List Char :=
  ((l.dropWhile (· = '-')).reverse.dropWhile (· = '-')).reverse

/-- The final replace of `slugify` (booking.model.ts:96): collapse each run
of one or more hyphens to a single hyphen. The flag records whether the
previous kept character of the current run was a hyphen. -/
def collapseHyph : List Char → Bool → List Char
  | [], _ => []
  | c :: rest, prev =>
    if c = '-' then
      if prev then collapseHyph rest true
      else '-' :: collapseHyph rest true
    else c :: collapseHyph rest false

/-- `slugify` (booking.model.ts:86-97): lower-case, trim, replace non-alnum
runs with hyphens, strip edge hyphens, collapse hyphen runs. -/
def slugify (s : String) : String :=
  ⟨collapseHyph (stripHyph (replHyph (trimChars (s.data.map asciiLower)) false)) false⟩

/-- The Event record shape operated on by the pre-save hook
(booking.model.ts:64-81). `slug` is an `Option` so that an unset field is
distinguishable from a set one; timestamps are system-managed and not
touched by the hook, so they are omitted. -/
structure EventRecord where
  title : String
  slug : Option String
  description : String
  overview : String
  image : String
  venue : String
  location : String
  date : String
  time : String
  mode : String
  audience : String
  agenda : List String
  organizer : String
  tags : List String
deriving Repr, DecidableEq

/-- JS falsiness of a possibly-unset string field (`!this.slug`): true when
the field is unset or is the empty string. -/
def strFalsy : Option String → Bool
  | none => true
  | some s => s = ""

/-- The slug-derivation step of the Event pre-save hook
(booking.model.ts:193-195): set `slug` to `slugify(title)` when the title
was modified in this write or the slug is falsy; otherwise change nothing. -/
def slugStep (e : EventRecord) (titleModified : Bool) : EventRecord :=
  if titleModified || strFalsy e.slug then { e with slug := some (slugify e.title) }
  else e

/-- The whole Event pre-save hook (booking.model.ts:190-211): slug step,
then date normalization, then time normalization; the first failure aborts.
`parseDate` abstracts the JS `new Date(...)` parse plus `toISOString`,
returning `none` when the date is unparseable (NaN time value). -/
def preSaveEvent (parseDate : String → Option String) (e : EventRecord)
    (titleModified : Bool) : Except String EventRecord :=
  match parseDate (slugStep e titleModified).date with
  | none => .error "Invalid date"
  | some iso =>
    match normalizeTime (slugStep e titleModified).time with
    | .error msg => .error msg
    | .ok t => .ok { slugStep e titleModified with date := iso, time := t }

/-- Character class `[^\s@]` of `EMAIL_RE` (booking.model.ts:17). -/
def emailChar (c : Char) : Bool :=
  !(isSpace c) && c ≠ '@'

/-- Search, in the part of the domain after its first character, for a `.`
that still has at least one character after it. -/
def dotSearch : List Char → Bool
  | [] => false
  | c :: rest => (c = '.' && !rest.isEmpty) || dotSearch rest

/-- The domain side of `EMAIL_RE` after its charset check: it must contain
a `.` that is neither its first nor its last character (so that both
`[^\s@]+` pieces around the `\.` are nonempty). -/
def domainOk : List Char → Bool
  | [] => false
  | _ :: rest => dotSearch rest

/-- Test of the anchored regex `EMAIL_RE` (booking.model.ts:17): a nonempty
run of `[^\s@]` characters, an `@`, then a domain made of `[^\s@]`
characters containing an inner `.`. -/
def emailOk (l : List Char) : Bool :=
  match l.dropWhile emailChar with
  | c :: b =>
    !(l.takeWhile emailChar).isEmpty && (c = '@') && b.all emailChar &&
      domainOk b
  | [] => false

/-- The mongoose `trim: true` and `lowercase: true` setters applied to the
email field (booking.model.ts:25-26). -/
def canonEmail (s : String) : String :=
  ⟨(trimChars s.data).map asciiLower⟩

/-- A stored Booking: an event reference and the (already canonicalized)
email. Event identifiers are abstracted as naturals. -/
structure BookingRec where
  eventId : Nat
  email : String
deriving Repr, DecidableEq

/-- The Booking pre-save hook in isolation (booking.model.ts:43-53):
succeed when the referenced Event exists, otherwise fail with the
referential-violation error. -/
def bookingPreSave (eventExists : Bool) : Except String Unit :=
  if eventExists then .ok () else .error "Referenced Event does not exist"

/-- A Booking `save` against a store: mongoose applies the field setters and
the email validator (booking.model.ts:22-31), then the pre-save existence
check against the set of existing Event ids (booking.model.ts:43-53), and
only then persists the document. -/
def saveBooking (events : List Nat) (bookings : List BookingRec)
    (eventId : Nat) (email : String) : Except String (List BookingRec) :=
  if !emailOk (canonEmail email).data then .error "Invalid email address"
  else
    match bookingPreSave (events.contains eventId) with
    | .error msg => .error msg
    | .ok _ => .ok (bookings ++ [⟨eventId, canonEmail email⟩])

/-- The module-level cache of mongodb.ts:24: the established connection and
the pending connection promise, the latter modelled by the eventual
settlement of the attempt. -/
structure MongooseCache (Conn : Type) where
  conn : Option Conn
  promise : Option (Except String Conn)

/-- Result of one `connectToDatabase` call: what the call returns (or
throws), the cache state it leaves behind, and whether this call invoked
the underlying `mongoose.connect`. -/
structure ConnectOutcome (Conn : Type) where
  result : Except String Conn
  cache : MongooseCache Conn
  connectCalled : Bool

/-- The error thrown when `process.env.MONGODB_URI` is absent
(mongodb.ts:39). -/
def missingUriMsg : String :=
  "Please define the MONGODB_URI environment variable inside .env.local"

/-- `connectToDatabase` (mongodb.ts:35-72), in source order: the URI check,
the live-connection check, reuse or creation of the pending promise, then
the await that stores the connection on success or propagates the
rejection. `connectResult` is the settlement `mongoose.connect` would
produce if this call were to invoke it. -/
def connectToDatabase (Conn : Type) (uri : Option String)
    (connectResult : Except String Conn) (cached : MongooseCache Conn) :
    ConnectOutcome Conn :=
  match uri with
  | none => ⟨.error missingUriMsg, cached, false⟩
  | some _ =>
    match cached.conn with
    | some c => ⟨.ok c, cached, false⟩
    | none =>
      let pc : Except String Conn × Bool :=
        match cached.promise with
        | some p => (p, false)
        | none => (connectResult, true)
      match pc.1 with
      | .error e => ⟨.error e, ⟨cached.conn, some pc.1⟩, pc.2⟩
      | .ok m => ⟨.ok m, ⟨some m, some pc.1⟩, pc.2⟩

/-- `getMongoose` (mongodb.ts:78-80): return the cached connection without
ever establishing one. -/
def getMongoose (Conn : Type) (cached : MongooseCache Conn) : Option Conn :=
  cached.conn

/-- Decimal rendering of a natural below 100, as JS `String(n)` produces it:
used only to build concrete test inputs for the grammars. -/
def renderNat (n : Nat) : List Char :=
  if n < 10 then [Char.ofNat (48 + n)] else pad2 n

/-- A 24-hour input `H:MM` with unpadded hour. -/
def render24 (hh mm : Nat) : String :=
  ⟨renderNat hh ++ ':' :: pad2 mm⟩

/-- The meridiem designator, lower- or upper-case. -/
def meridiem (pm upper : Bool) : List Char :=
  if pm then (if upper then ['P', 'M'] else ['p', 'm'])
  else (if upper then ['A', 'M'] else ['a', 'm'])

/-- A 12-hour input `H[:MM] am/pm` (single space before the meridiem). -/
def render12 (h : Nat) (mm : Option Nat) (pm upper : Bool) : String :=
  ⟨renderNat h ++ (match mm with | some m => ':' :: pad2 m | none => []) ++
    ' ' :: meridiem pm upper⟩

/-- No two adjacent hyphens. -/
def NoDoubleHyphen (l : List Char) : Prop :=
  List.Chain' (fun a b => ¬(a = '-' ∧ b = '-')) l

instance : DecidablePred NoDoubleHyphen := fun l =>
  List.decidableChain' l

/-! ## Theorems about the connection cache (`src/lib/mongodb.ts`) -/

/-- C1, counterexample: with a live connection cached (`conn = some 7`) but
the URI absent, `connectToDatabase` does not return the cached connection:
it fails with the missing-configuration error, because the URI check
precedes the cache check (mongodb.ts:37-45). -/
theorem connect_cached_call_hits_uri_check :
    (connectToDatabase Nat none (Except.ok 5)
        ⟨some 7, none⟩).result = Except.error missingUriMsg ∧
    (connectToDatabase Nat none (Except.ok 5)
        ⟨some 7, none⟩).result ≠ Except.ok 7 := by
  exact ⟨rfl, by decide⟩

/-- C1, amended: every call checks the connection URI first; an absent URI
fails every call with the missing-configuration error, cache state
notwithstanding, and no establishment is started. When the URI is present
and a live connection is cached, the call returns it immediately with no
establishment and no cache change. -/
theorem connect_uri_first_then_cache (Conn : Type) (uri : Option String)
    (cr : Except String Conn) (cache : MongooseCache Conn) :
    (uri = none →
      connectToDatabase Conn uri cr cache =
        ⟨Except.error missingUriMsg, cache, false⟩) ∧
    (∀ u c, uri = some u → cache.conn = some c →
      connectToDatabase Conn uri cr cache = ⟨Except.ok c, cache, false⟩) := by
  constructor
  · rintro rfl
    rfl
  · rintro u c rfl hc
    simp [connectToDatabase, hc]

/-- Witness for `connect_uri_first_then_cache` at concrete inputs. -/
theorem connect_uri_first_then_cache_witness :
    connectToDatabase Nat none (Except.ok 5) ⟨some 7, none⟩ =
      ⟨Except.error missingUriMsg, ⟨some 7, none⟩, false⟩ ∧
    connectToDatabase Nat (some "mongodb://x") (Except.ok 5) ⟨some 7, none⟩ =
      ⟨Except.ok 7, ⟨some 7, none⟩, false⟩ :=
  ⟨(connect_uri_first_then_cache Nat none (Except.ok 5) ⟨some 7, none⟩).1 rfl,
   (connect_uri_first_then_cache Nat (some "mongodb://x") (Except.ok 5)
      ⟨some 7, none⟩).2 "mongodb://x" 7 rfl rfl⟩

/-- C8: whenever the pending-promise slot is non-null, a call never invokes
the underlying connect, and (when no live connection is cached yet) returns
that stored attempt's settlement; two sequential first-time calls — the
second starting after the first has stored its promise — cause exactly one
establishment and both receive the same handle. -/
theorem connect_single_establishment :
    (∀ (Conn : Type) (u : String) (cr : Except String Conn)
        (cache : MongooseCache Conn) (p : Except String Conn),
      cache.promise = some p →
        (connectToDatabase Conn (some u) cr cache).connectCalled = false ∧
        (cache.conn = none →
          (connectToDatabase Conn (some u) cr cache).result = p)) ∧
    (∀ (Conn : Type) (u : String) (m : Conn) (cr2 : Except String Conn),
      (connectToDatabase Conn (some u) (Except.ok m)
        ⟨none, none⟩).connectCalled = true ∧
      (connectToDatabase Conn (some u) (Except.ok m)
        ⟨none, none⟩).result = Except.ok m ∧
      (connectToDatabase Conn (some u) cr2
        (connectToDatabase Conn (some u) (Except.ok m)
          ⟨none, none⟩).cache).connectCalled = false ∧
      (connectToDatabase Conn (some u) cr2
        (connectToDatabase Conn (some u) (Except.ok m)
          ⟨none, none⟩).cache).result = Except.ok m) := by
  constructor
  · rintro Conn u cr ⟨co, pr⟩ p hp
    cases hp
    constructor
    · cases co with
      | none => cases p <;> rfl
      | some c => rfl
    · rintro rfl
      cases p <;> rfl
  · intro Conn u m cr2
    exact ⟨rfl, rfl, rfl, rfl⟩

/-- Witness for `connect_single_establishment` at concrete inputs. -/
theorem connect_single_establishment_witness :
    (connectToDatabase Nat (some "u") (Except.ok 9)
      ⟨none, some (Except.ok 4)⟩).connectCalled = false ∧
    (connectToDatabase Nat (some "u") (Except.ok 9)
      ⟨none, some (Except.ok 4)⟩).result = Except.ok 4 :=
  ⟨((connect_single_establishment.1 Nat "u" (Except.ok 9)
      ⟨none, some (Except.ok 4)⟩ (Except.ok 4) rfl)).1,
   ((connect_single_establishment.1 Nat "u" (Except.ok 9)
      ⟨none, some (Except.ok 4)⟩ (Except.ok 4) rfl)).2 rfl⟩

/-- C10: a failed establishment leaves the rejected attempt in the
pending-promise slot with no connection stored, and every later call with
that cache state returns the same stored error without invoking the
underlying connect — no fresh attempt is ever started after a failure. -/
theorem connect_failed_attempt_sticky :
    (∀ (Conn : Type) (u e : String),
      (connectToDatabase Conn (some u) (Except.error e)
        (⟨none, none⟩ : MongooseCache Conn)).result = Except.error e ∧
      (connectToDatabase Conn (some u) (Except.error e)
        (⟨none, none⟩ : MongooseCache Conn)).cache =
          ⟨none, some (Except.error e)⟩ ∧
      (connectToDatabase Conn (some u) (Except.error e)
        (⟨none, none⟩ : MongooseCache Conn)).connectCalled = true) ∧
    (∀ (Conn : Type) (u e : String) (cr : Except String Conn),
      (connectToDatabase Conn (some u) cr
        ⟨none, some (Except.error e)⟩).result = Except.error e ∧
      (connectToDatabase Conn (some u) cr
        ⟨none, some (Except.error e)⟩).cache = ⟨none, some (Except.error e)⟩ ∧
      (connectToDatabase Conn (some u) cr
        ⟨none, some (Except.error e)⟩).connectCalled = false) :=
  ⟨fun _ _ _ => ⟨rfl, rfl, rfl⟩, fun _ _ _ _ => ⟨rfl, rfl, rfl⟩⟩

/-! ## Theorems about normalizeTime -/

/-- C2: every valid 24-hour input `H:MM`/`HH:MM` (hour in [0,23], minute in
[0,59]) normalizes to the zero-padded `HH:MM` of the same time value, and
every valid 12-hour input `H[:MM] am/pm` (hour in [1,12], minute in [0,59]
defaulting to 0, meridiem case-insensitive) normalizes to its 24-hour
equivalent, with 12am giving "00:00" and 12pm giving "12:00". -/
theorem normalizeTime_valid_inputs :
    (∀ hh, hh < 24 → ∀ mm, mm < 60 →
      normalizeTime (render24 hh mm) = Except.ok (timeStr hh mm) ∧
      normalizeTime (timeStr hh mm) = Except.ok (timeStr hh mm)) ∧
    (∀ h, h < 13 → 1 ≤ h → ∀ mm, mm < 60 → ∀ pm : Bool,
      normalizeTime (render12 h (some mm) pm false) =
        Except.ok (timeStr (to24 h pm) mm)) ∧
    (∀ h, h < 13 → 1 ≤ h → ∀ pm upper : Bool,
      normalizeTime (render12 h none pm upper) =
        Except.ok (timeStr (to24 h pm) 0)) ∧
    normalizeTime "2:30 pm" = Except.ok "14:30" ∧
    normalizeTime "12am" = Except.ok "00:00" ∧
    normalizeTime "12pm" = Except.ok "12:00" ∧
    normalizeTime "2:30 PM" = Except.ok "14:30" ∧
    normalizeTime "2pm" = Except.ok "14:00" := by
  refine ⟨by decide, by decide, by decide, by decide, by decide, by decide,
    by decide, by decide⟩

/-- C3: `normalizeTime` fails with the "Invalid time" error exactly when
one of the two grammars matches but its hour or minute is out of range for
that grammar, fails with the "Unrecognized time format" error exactly when
neither grammar matches, and accepts nothing else: every accepted input
matched one of the grammars with in-range values. Concretely "25:00" and
"13:00 pm" are invalid times, "24:00" is rejected, and inputs with seconds
or fractional minutes match no grammar. -/
theorem normalizeTime_error_conditions :
    (∀ (s : String) (hh mm : Nat), match24 (canonTime s) = some (hh, mm) →
      ((normalizeTime s = Except.error "Invalid time") ↔
        (23 < hh ∨ 59 < mm)) ∧
      ((normalizeTime s = Except.ok (timeStr hh mm)) ↔
        (hh ≤ 23 ∧ mm ≤ 59)) ∧
      normalizeTime s ≠ Except.error "Unrecognized time format") ∧
    (∀ (s : String) (hh mm : Nat) (pm : Bool),
      match24 (canonTime s) = none →
      match12 (canonTime s) = some (hh, mm, pm) →
      ((normalizeTime s = Except.error "Invalid time") ↔
        (hh < 1 ∨ 12 < hh ∨ 59 < mm)) ∧
      normalizeTime s ≠ Except.error "Unrecognized time format") ∧
    (∀ s : String, match24 (canonTime s) = none →
      match12 (canonTime s) = none →
      normalizeTime s = Except.error "Unrecognized time format") ∧
    (∀ (s r : String), normalizeTime s = Except.ok r →
      (∃ hh mm, match24 (canonTime s) = some (hh, mm) ∧
        hh ≤ 23 ∧ mm ≤ 59) ∨
      (∃ hh mm pm, match12 (canonTime s) = some (hh, mm, pm) ∧
        1 ≤ hh ∧ hh ≤ 12 ∧ mm ≤ 59)) ∧
    normalizeTime "25:00" = Except.error "Invalid time" ∧
    normalizeTime "13:00 pm" = Except.error "Invalid time" ∧
    normalizeTime "24:00" = Except.error "Invalid time" ∧
    normalizeTime "12:30:45" = Except.error "Unrecognized time format" ∧
    normalizeTime "2:30.5 pm" = Except.error "Unrecognized time format" := by
  have key24 : ∀ (s : String) (hh mm : Nat),
      match24 (canonTime s) = some (hh, mm) →
      normalizeTime s = (if hh > 23 || mm > 59 then Except.error "Invalid time"
        else Except.ok (timeStr hh mm)) := by
    intro s hh mm h
    unfold normalizeTime
    rw [h]
  have key12 : ∀ (s : String) (hh mm : Nat) (pm : Bool),
      match24 (canonTime s) = none →
      match12 (canonTime s) = some (hh, mm, pm) →
      normalizeTime s =
        (if hh < 1 || hh > 12 || mm > 59 then Except.error "Invalid time"
         else Except.ok (timeStr (to24 hh pm) mm)) := by
    intro s hh mm pm h24 h12
    unfold normalizeTime
    rw [h24, h12]
  have keyNone : ∀ s : String, match24 (canonTime s) = none →
      match12 (canonTime s) = none →
      normalizeTime s = Except.error "Unrecognized time format" := by
    intro s h24 h12
    unfold normalizeTime
    rw [h24, h12]
  refine ⟨?_, ?_, keyNone, ?_, by decide, by decide, by decide, by decide,
    by decide⟩
  · intro s hh mm h
    rw [key24 s hh mm h]
    refine ⟨?_, ?_, ?_⟩ <;> split_ifs with hcond <;>
      simp_all <;> omega
  · intro s hh mm pm h24 h12
    rw [key12 s hh mm pm h24 h12]
    constructor <;> split_ifs with hcond <;> simp_all <;> omega
  · intro s r h
    rcases h24 : match24 (canonTime s) with _ | ⟨hh, mm⟩
    · rcases h12 : match12 (canonTime s) with _ | ⟨hh, mm, pm⟩
      · rw [keyNone s h24 h12] at h
        exact absurd h (by simp)
      · right
        rw [key12 s hh mm pm h24 h12] at h
        by_cases hcond : (hh < 1 || hh > 12 || mm > 59) = true
        · rw [if_pos hcond] at h
          exact absurd h (by simp)
        · simp only [Bool.or_eq_true, decide_eq_true_eq, not_or] at hcond
          exact ⟨hh, mm, pm, rfl, by omega, by omega, by omega⟩
    · left
      rw [key24 s hh mm h24] at h
      by_cases hcond : (hh > 23 || mm > 59) = true
      · rw [if_pos hcond] at h
        exact absurd h (by simp)
      · simp only [Bool.or_eq_true, decide_eq_true_eq, not_or] at hcond
        exact ⟨hh, mm, rfl, by omega, by omega⟩

/-- Witness for `normalizeTime_error_conditions` at concrete inputs. -/
theorem normalizeTime_error_conditions_witness :
    ((normalizeTime "25:00" = Except.error "Invalid time") ↔
      ((23:Nat) < 25 ∨ (59:Nat) < 0)) ∧
    normalizeTime "7 am" ≠ Except.error "Unrecognized time format" ∧
    normalizeTime "noon" = Except.error "Unrecognized time format" ∧
    ((∃ hh mm, match24 (canonTime "09:30") = some (hh, mm) ∧
        hh ≤ 23 ∧ mm ≤ 59) ∨
      (∃ hh mm pm, match12 (canonTime "09:30") = some (hh, mm, pm) ∧
        1 ≤ hh ∧ hh ≤ 12 ∧ mm ≤ 59)) :=
  ⟨(normalizeTime_error_conditions.1 "25:00" 25 0 (by decide)).1,
   (normalizeTime_error_conditions.2.1 "7 am" 7 0 false (by decide)
      (by decide)).2,
   normalizeTime_error_conditions.2.2.1 "noon" (by decide) (by decide),
   normalizeTime_error_conditions.2.2.2.1 "09:30" "09:30" (by decide)⟩

/-- Witness for `normalizeTime_valid_inputs` at concrete inputs. -/
theorem normalizeTime_valid_inputs_witness :
    normalizeTime (render24 9 5) = Except.ok (timeStr 9 5) ∧
    normalizeTime (timeStr 23 59) = Except.ok (timeStr 23 59) ∧
    normalizeTime (render12 12 (some 30) true false) =
      Except.ok (timeStr (to24 12 true) 30) ∧
    normalizeTime (render12 7 none false true) =
      Except.ok (timeStr (to24 7 false) 0) :=
  ⟨(normalizeTime_valid_inputs.1 9 (by decide) 5 (by decide)).1,
   (normalizeTime_valid_inputs.1 23 (by decide) 59 (by decide)).2,
   normalizeTime_valid_inputs.2.1 12 (by decide) (by decide) 30 (by decide)
     true,
   normalizeTime_valid_inputs.2.2.1 7 (by decide) (by decide) false true⟩

/-! ## Theorems about the Event and Booking pre-save transformations -/

/-- C5: the slug-derivation step of the Event pre-save hook sets `slug` to
`slugify(title)` exactly when the title was modified in this write or the
slug is unset (falsy); otherwise the whole record is left unchanged. Every
field other than `slug` is untouched by the step, and in the full pre-save
hook the resulting slug obeys the same rule while fields not written by the
hook (e.g. `description`) are preserved. -/
theorem event_slug_derivation (e : EventRecord) (tm : Bool) :
    ((slugStep e tm).slug =
      (if tm || strFalsy e.slug then some (slugify e.title) else e.slug)) ∧
    (tm = false → strFalsy e.slug = false → slugStep e tm = e) ∧
    (slugStep e tm).title = e.title ∧
    (slugStep e tm).description = e.description ∧
    (slugStep e tm).overview = e.overview ∧
    (slugStep e tm).image = e.image ∧
    (slugStep e tm).venue = e.venue ∧
    (slugStep e tm).location = e.location ∧
    (slugStep e tm).date = e.date ∧
    (slugStep e tm).time = e.time ∧
    (slugStep e tm).mode = e.mode ∧
    (slugStep e tm).audience = e.audience ∧
    (slugStep e tm).agenda = e.agenda ∧
    (slugStep e tm).organizer = e.organizer ∧
    (slugStep e tm).tags = e.tags ∧
    (∀ (pd : String → Option String) (e1 : EventRecord),
      preSaveEvent pd e tm = Except.ok e1 →
        e1.slug =
          (if tm || strFalsy e.slug then some (slugify e.title) else e.slug) ∧
        e1.title = e.title ∧ e1.description = e.description ∧
        e1.overview = e.overview ∧ e1.organizer = e.organizer) := by
  have hslug : (slugStep e tm).slug =
      (if tm || strFalsy e.slug then some (slugify e.title) else e.slug) := by
    unfold slugStep
    split <;> simp_all
  have hid : tm = false → strFalsy e.slug = false → slugStep e tm = e := by
    intro h1 h2
    unfold slugStep
    simp [h1, h2]
  have hfr : (slugStep e tm).title = e.title ∧
      (slugStep e tm).description = e.description ∧
      (slugStep e tm).overview = e.overview ∧
      (slugStep e tm).image = e.image ∧
      (slugStep e tm).venue = e.venue ∧
      (slugStep e tm).location = e.location ∧
      (slugStep e tm).date = e.date ∧
      (slugStep e tm).time = e.time ∧
      (slugStep e tm).mode = e.mode ∧
      (slugStep e tm).audience = e.audience ∧
      (slugStep e tm).agenda = e.agenda ∧
      (slugStep e tm).organizer = e.organizer ∧
      (slugStep e tm).tags = e.tags := by
    unfold slugStep
    split <;> simp
  obtain ⟨f1, f2, f3, f4, f5, f6, f7, f8, f9, f10, f11, f12, f13⟩ := hfr
  have hpre : ∀ (pd : String → Option String) (e1 : EventRecord),
      preSaveEvent pd e tm = Except.ok e1 →
        e1.slug =
          (if tm || strFalsy e.slug then some (slugify e.title) else e.slug) ∧
        e1.title = e.title ∧ e1.description = e.description ∧
        e1.overview = e.overview ∧ e1.organizer = e.organizer := by
    intro pd e1 h
    unfold preSaveEvent at h
    rcases hpd : pd (slugStep e tm).date with _ | iso <;> rw [hpd] at h
    · simp at h
    · rcases hnt : normalizeTime (slugStep e tm).time with msg | t <;>
        rw [hnt] at h
      · simp at h
      · have h2 : { slugStep e tm with date := iso, time := t } = e1 := by
          simpa using h
        subst h2
        exact ⟨hslug, f1, f2, f3, f12⟩
  exact ⟨hslug, hid, f1, f2, f3, f4, f5, f6, f7, f8, f9, f10, f11, f12, f13,
    hpre⟩

/-- Witness for `event_slug_derivation` at a concrete record. -/
theorem event_slug_derivation_witness :
    slugStep ⟨"My Talk", some "kept-slug", "d", "o", "i", "v", "l",
      "2026-01-01", "2:30 pm", "m", "a", ["x"], "org", ["t"]⟩ false =
      ⟨"My Talk", some "kept-slug", "d", "o", "i", "v", "l",
        "2026-01-01", "2:30 pm", "m", "a", ["x"], "org", ["t"]⟩ ∧
    (slugStep ⟨"My Talk", none, "d", "o", "i", "v", "l",
      "2026-01-01", "2:30 pm", "m", "a", ["x"], "org", ["t"]⟩ false).slug =
      some "my-talk" :=
  ⟨(event_slug_derivation ⟨"My Talk", some "kept-slug", "d", "o", "i", "v",
      "l", "2026-01-01", "2:30 pm", "m", "a", ["x"], "org", ["t"]⟩
      false).2.1 rfl rfl,
   ((event_slug_derivation ⟨"My Talk", none, "d", "o", "i", "v", "l",
      "2026-01-01", "2:30 pm", "m", "a", ["x"], "org", ["t"]⟩
      false).1).trans (by decide)⟩

/-- C6: a Booking save is permitted only when the referenced Event exists:
the pre-save hook succeeds exactly when the existence check succeeds and
otherwise fails with the referential-violation error; a full save never
persists a Booking whose `eventId` is not among the existing Events, and
(when the email passes validation) fails with exactly that error. -/
theorem booking_requires_event :
    (∀ ex : Bool, bookingPreSave ex = Except.ok () ↔ ex = true) ∧
    bookingPreSave false = Except.error "Referenced Event does not exist" ∧
    (∀ (evs : List Nat) (bks : List BookingRec) (eid : Nat) (em : String)
        (bks2 : List BookingRec),
      saveBooking evs bks eid em = Except.ok bks2 → eid ∈ evs) ∧
    (∀ (evs : List Nat) (bks : List BookingRec) (eid : Nat) (em : String),
      eid ∉ evs → emailOk (canonEmail em).data = true →
        saveBooking evs bks eid em =
          Except.error "Referenced Event does not exist") ∧
    (∀ (evs : List Nat) (bks : List BookingRec) (eid : Nat) (em : String),
      eid ∉ evs → ∀ bks2, saveBooking evs bks eid em ≠ Except.ok bks2) := by
  refine ⟨?_, rfl, ?_, ?_, ?_⟩
  · intro ex
    cases ex <;> simp [bookingPreSave]
  · intro evs bks eid em bks2 h
    unfold saveBooking at h
    by_cases hc : evs.contains eid = true
    · exact List.mem_of_elem_eq_true hc
    · rw [Bool.not_eq_true] at hc
      rw [hc] at h
      cases hemb : emailOk (canonEmail em).data <;> rw [hemb] at h <;>
        simp [bookingPreSave] at h
  · intro evs bks eid em hev hem
    have hc : evs.contains eid = false := by
      cases hcc : evs.contains eid
      · rfl
      · exact absurd (List.mem_of_elem_eq_true hcc) hev
    unfold saveBooking
    rw [hem, hc]
    simp [bookingPreSave]
  · intro evs bks eid em hev bks2 h
    have hc : evs.contains eid = false := by
      cases hcc : evs.contains eid
      · rfl
      · exact absurd (List.mem_of_elem_eq_true hcc) hev
    unfold saveBooking at h
    rw [hc] at h
    cases hemb : emailOk (canonEmail em).data <;> rw [hemb] at h <;>
      simp [bookingPreSave] at h

/-- C7: a Booking write first trims and lower-cases the email and accepts
it exactly when the result passes the address-shape check; the stored email
is the canonicalized form; an accepted email contains no whitespace at all;
a failing email rejects the write. Concretely, "User@Example.COM" is
accepted and stored as "user@example.com". -/
theorem booking_email_canonicalized :
    (∀ (evs : List Nat) (bks : List BookingRec) (eid : Nat) (em : String),
      eid ∈ evs →
        ((∃ bks2, saveBooking evs bks eid em = Except.ok bks2) ↔
          emailOk (canonEmail em).data = true)) ∧
    (∀ (evs : List Nat) (bks : List BookingRec) (eid : Nat) (em : String)
        (bks2 : List BookingRec),
      saveBooking evs bks eid em = Except.ok bks2 →
        bks2 = bks ++ [⟨eid, canonEmail em⟩]) ∧
    (∀ (evs : List Nat) (bks : List BookingRec) (eid : Nat) (em : String),
      emailOk (canonEmail em).data = false →
        saveBooking evs bks eid em = Except.error "Invalid email address") ∧
    (∀ l : List Char, emailOk l = true →
      l.all (fun c => !(isSpace c)) = true) ∧
    canonEmail "User@Example.COM" = "user@example.com" ∧
    saveBooking [1] [] 1 "User@Example.COM" =
      Except.ok [⟨1, "user@example.com"⟩] := by
  refine ⟨?_, ?_, ?_, ?_, by decide, by decide⟩
  · intro evs bks eid em hev
    have hc : evs.contains eid = true := List.elem_eq_true_of_mem hev
    constructor
    · rintro ⟨bks2, h⟩
      by_contra hem
      rw [Bool.not_eq_true] at hem
      unfold saveBooking at h
      rw [hem] at h
      simp at h
    · intro hem
      refine ⟨bks ++ [⟨eid, canonEmail em⟩], ?_⟩
      unfold saveBooking
      rw [hem, hc]
      simp [bookingPreSave]
  · intro evs bks eid em bks2 h
    unfold saveBooking at h
    cases hemb : emailOk (canonEmail em).data <;> rw [hemb] at h
    · simp at h
    · cases hc : evs.contains eid <;> rw [hc] at h <;>
        simp [bookingPreSave] at h
      try exact h.symm
      try exact h
  · intro evs bks eid em hem
    unfold saveBooking
    rw [hem]
    simp
  · intro l h
    unfold emailOk at h
    rcases hd : l.dropWhile emailChar with _ | ⟨c, b⟩ <;> rw [hd] at h
    · simp at h
    · simp only [Bool.and_eq_true, decide_eq_true_eq] at h
      obtain ⟨⟨⟨hne, hcat⟩, hball⟩, hdom⟩ := h
      have hsplit := List.takeWhile_append_dropWhile emailChar l
      rw [← hsplit, hd]
      simp only [List.all_append, List.all_cons, Bool.and_eq_true,
        List.all_eq_true]
      refine ⟨fun x hx => ?_, ?_, fun x hx => ?_⟩
      · have hx2 := List.mem_takeWhile_imp hx
        unfold emailChar at hx2
        rw [Bool.and_eq_true] at hx2
        exact hx2.1
      · subst hcat
        decide
      · have hx2 := List.all_eq_true.mp hball x hx
        unfold emailChar at hx2
        rw [Bool.and_eq_true] at hx2
        exact hx2.1

/-- Witness for `booking_email_canonicalized` at concrete inputs. -/
theorem booking_email_canonicalized_witness :
    (∃ bks2, saveBooking [1] [] 1 " User@Example.COM " = Except.ok bks2) ∧
    saveBooking [1] [] 1 "bad email" = Except.error "Invalid email address" ∧
    "a@b.cd".data.all (fun c => !(isSpace c)) = true :=
  ⟨(booking_email_canonicalized.1 [1] [] 1 " User@Example.COM "
      (by decide)).mpr (by decide),
   booking_email_canonicalized.2.2.1 [1] [] 1 "bad email" (by decide),
   booking_email_canonicalized.2.2.2.1 "a@b.cd".data (by decide)⟩

/-- Witness for `booking_requires_event` at concrete inputs. -/
theorem booking_requires_event_witness :
    bookingPreSave true = Except.ok () ∧
    saveBooking [1, 2] [] 3 "a@b.c" =
      Except.error "Referenced Event does not exist" ∧
    (3 : Nat) ∈ [3, 4] :=
  ⟨(booking_requires_event.1 true).2 rfl,
   booking_requires_event.2.2.2.1 [1, 2] [] 3 "a@b.c" (by decide) (by decide),
   booking_requires_event.2.2.1 [3, 4] [] 3 "a@b.c"
     [⟨3, "a@b.c"⟩] (by decide)⟩

end DevEvents

namespace DevEvents

/-! ## Lemmas and theorems about slugify -/

theorem isAlnumLower_ne_hyph {c : Char} (h : isAlnumLower c = true) :
    c ≠ '-' := by
  intro hc
  subst hc
  exact absurd h (by decide)

theorem slugChar_asciiLower {c : Char} (h : slugChar c = true) :
    asciiLower c = c := by
  unfold slugChar isAlnumLower at h
  unfold asciiLower
  rw [if_neg]
  rintro ⟨hA, hZ⟩
  simp only [Bool.or_eq_true, Bool.and_eq_true, decide_eq_true_eq] at h
  rcases h with (⟨ha, _⟩ | ⟨_, h9⟩) | hd
  · exact absurd (le_trans ha hZ) (by decide)
  · exact absurd (le_trans hA h9) (by decide)
  · subst hd
    exact absurd hA (by decide)

theorem slugChar_not_space {c : Char} (h : slugChar c = true) :
    isSpace c = false := by
  cases hs : isSpace c
  · rfl
  · exfalso
    unfold isSpace at hs
    simp only [Bool.or_eq_true, decide_eq_true_eq] at hs
    rcases hs with ((((h1 | h1) | h1) | h1) | h1) | h1 <;> subst h1 <;>
      exact absurd h (by decide)

theorem replHyph_all : ∀ (l : List Char) (b : Bool),
    (replHyph l b).all slugChar = true := by
  intro l
  induction l with
  | nil => intro b; rfl
  | cons c rest ih =>
    intro b
    unfold replHyph
    by_cases hc : isAlnumLower c = true
    · rw [if_pos hc]
      simp [slugChar, hc, ih false]
    · rw [if_neg hc]
      cases b
      · simp only [Bool.false_eq_true, if_false]
        simp [slugChar, ih true]
      · simp only [if_true]
        exact ih true

theorem replHyph_head_alnum : ∀ (l : List Char) (c : Char),
    (replHyph l true).head? = some c → isAlnumLower c = true := by
  intro l
  induction l with
  | nil =>
    intro c h
    simp [replHyph] at h
  | cons d rest ih =>
    intro c h
    unfold replHyph at h
    by_cases hd : isAlnumLower d = true
    · rw [if_pos hd, List.head?_cons, Option.some.injEq] at h
      subst h
      exact hd
    · rw [if_neg hd] at h
      exact ih c (by simpa using h)

theorem replHyph_noDouble : ∀ (l : List Char) (b : Bool),
    NoDoubleHyphen (replHyph l b) := by
  intro l
  induction l with
  | nil =>
    intro b
    unfold replHyph
    exact List.chain'_nil
  | cons c rest ih =>
    intro b
    unfold replHyph
    by_cases hc : isAlnumLower c = true
    · rw [if_pos hc]
      rw [NoDoubleHyphen, List.chain'_cons']
      refine ⟨?_, ih false⟩
      intro y _
      rintro ⟨hcc, _⟩
      exact isAlnumLower_ne_hyph hc hcc
    · rw [if_neg hc]
      cases b
      · simp only [Bool.false_eq_true, if_false]
        rw [NoDoubleHyphen, List.chain'_cons']
        refine ⟨?_, ih true⟩
        intro y hy
        rintro ⟨_, hyh⟩
        exact isAlnumLower_ne_hyph
          (replHyph_head_alnum rest y (Option.mem_def.mp hy)) hyh
      · simp only [if_true]
        exact ih true

theorem noDouble_dropWhile (p : Char → Bool) :
    ∀ l : List Char, NoDoubleHyphen l → NoDoubleHyphen (l.dropWhile p) := by
  intro l
  induction l with
  | nil => intro h; exact h
  | cons c rest ih =>
    intro h
    rw [List.dropWhile_cons]
    by_cases hc : p c = true
    · rw [if_pos hc]
      exact ih h.tail
    · rw [if_neg hc]
      exact h

theorem noDouble_reverse (l : List Char) (h : NoDoubleHyphen l) :
    NoDoubleHyphen l.reverse := by
  rw [NoDoubleHyphen, List.chain'_reverse]
  exact h.imp (fun a b hab ⟨hb, ha⟩ => hab ⟨ha, hb⟩)

theorem all_dropWhile (q p : Char → Bool) (l : List Char)
    (h : l.all q = true) : (l.dropWhile p).all q = true := by
  rw [List.all_eq_true] at h ⊢
  intro x hx
  exact h x ((List.dropWhile_sublist p).subset hx)

theorem head?_dropWhile_not (p : Char → Bool) :
    ∀ (l : List Char) (c : Char),
      (l.dropWhile p).head? = some c → p c = false := by
  intro l
  induction l with
  | nil => intro c h; exact absurd h (by simp)
  | cons d rest ih =>
    intro c h
    rw [List.dropWhile_cons] at h
    by_cases hd : p d = true
    · rw [if_pos hd] at h
      exact ih c h
    · rw [if_neg hd] at h
      rw [List.head?_cons, Option.some.injEq] at h
      subst h
      exact Bool.not_eq_true _ ▸ hd

theorem getLast?_dropWhile_of_ne (p : Char → Bool) :
    ∀ l : List Char, l.dropWhile p ≠ [] →
      (l.dropWhile p).getLast? = l.getLast? := by
  intro l
  induction l with
  | nil => intro h; exact absurd rfl h
  | cons c rest ih =>
    intro h
    rw [List.dropWhile_cons] at h ⊢
    by_cases hc : p c = true
    · rw [if_pos hc] at h ⊢
      have hrest : rest ≠ [] := by
        intro he
        subst he
        exact h rfl
      rcases hx : rest with _ | ⟨d, rest2⟩
      · exact absurd hx hrest
      · rw [← hx, ih h, hx, List.getLast?_cons_cons]
    · rw [if_neg hc]

theorem collapseHyph_eq_self : ∀ l : List Char, NoDoubleHyphen l →
    collapseHyph l false = l ∧
      (l.head? ≠ some '-' → collapseHyph l true = l) := by
  intro l
  induction l with
  | nil => intro _; exact ⟨rfl, fun _ => rfl⟩
  | cons c rest ih =>
    intro h
    have htail := h.tail
    rw [NoDoubleHyphen, List.chain'_cons'] at h
    obtain ⟨hbound, _⟩ := h
    constructor
    · unfold collapseHyph
      by_cases hc : c = '-'
      · subst hc
        simp only [if_pos rfl]
        rw [if_neg (by simp : ¬(false = true))]
        have hrest : rest.head? ≠ some '-' := by
          intro hrh
          exact hbound '-' (Option.mem_def.mpr hrh) ⟨rfl, rfl⟩
        rw [(ih htail).2 hrest]
        simp
      · rw [if_neg (by simpa using hc)]
        rw [(ih htail).1]
    · intro hhd
      unfold collapseHyph
      by_cases hc : c = '-'
      · exact absurd (by rw [List.head?_cons, hc]) hhd
      · rw [if_neg (by simpa using hc)]
        rw [(ih htail).1]

theorem stripHyph_head : ∀ (l : List Char) (c : Char),
    (stripHyph l).head? = some c → c ≠ '-' := by
  intro l c h
  unfold stripHyph at h
  rw [List.head?_reverse] at h
  by_cases hne : ((l.dropWhile (· = '-')).reverse.dropWhile (· = '-')) = []
  · rw [hne] at h
    exact absurd h (by simp)
  · rw [getLast?_dropWhile_of_ne _ _ hne, List.getLast?_reverse] at h
    have := head?_dropWhile_not (· = '-') l c h
    simpa using this

theorem stripHyph_getLast : ∀ (l : List Char) (c : Char),
    (stripHyph l).getLast? = some c → c ≠ '-' := by
  intro l c h
  unfold stripHyph at h
  rw [List.getLast?_reverse] at h
  have := head?_dropWhile_not (· = '-') (l.dropWhile (· = '-')).reverse c h
  simpa using this

theorem stripHyph_all (q : Char → Bool) (l : List Char)
    (h : l.all q = true) : (stripHyph l).all q = true := by
  unfold stripHyph
  rw [List.all_reverse]
  exact all_dropWhile q _ _ (by rw [List.all_reverse]; exact all_dropWhile q _ _ h)

theorem stripHyph_noDouble (l : List Char) (h : NoDoubleHyphen l) :
    NoDoubleHyphen (stripHyph l) := by
  unfold stripHyph
  exact noDouble_reverse _ (noDouble_dropWhile _ _
    (noDouble_reverse _ (noDouble_dropWhile _ _ h)))

theorem slugify_data (s : String) :
    (slugify s).data =
      stripHyph (replHyph (trimChars (s.data.map asciiLower)) false) := by
  show collapseHyph (stripHyph (replHyph (trimChars (s.data.map asciiLower)) false)) false = _
  exact (collapseHyph_eq_self _
    (stripHyph_noDouble _ (replHyph_noDouble _ false))).1

theorem slug_props (s : String) :
    (slugify s).data.all slugChar = true ∧
    NoDoubleHyphen (slugify s).data ∧
    (∀ c, (slugify s).data.head? = some c → c ≠ '-') ∧
    (∀ c, (slugify s).data.getLast? = some c → c ≠ '-') := by
  rw [slugify_data]
  exact ⟨stripHyph_all _ _ (replHyph_all _ false),
    stripHyph_noDouble _ (replHyph_noDouble _ false),
    stripHyph_head _, stripHyph_getLast _⟩

/-- C4: `slugify` is a total pure function whose output contains only
`[a-z0-9]` characters and single hyphens — no uppercase letters and no
whitespace survive, no two hyphens are adjacent, and the output neither
starts nor ends with a hyphen; the empty input yields the empty string, and
the spec's concrete examples hold. -/
theorem slugify_canonical :
    (∀ s : String,
      (slugify s).data.all slugChar = true ∧
      NoDoubleHyphen (slugify s).data ∧
      (∀ c, (slugify s).data.head? = some c → c ≠ '-') ∧
      (∀ c, (slugify s).data.getLast? = some c → c ≠ '-')) ∧
    slugify "" = "" ∧
    slugify "Hello, World!  Foo" = "hello-world-foo" ∧
    slugify "  --Multi---Space--  " = "multi-space" :=
  ⟨slug_props, by decide, by decide, by decide⟩

/-- Witness for `slugify_canonical` at a concrete input. -/
theorem slugify_canonical_witness :
    (slugify "A  b!").data.all slugChar = true ∧
    NoDoubleHyphen (slugify "A  b!").data ∧
    ('a' : Char) ≠ '-' ∧ ('b' : Char) ≠ '-' :=
  ⟨(slugify_canonical.1 "A  b!").1,
   (slugify_canonical.1 "A  b!").2.1,
   (slugify_canonical.1 "A  b!").2.2.1 'a' (by decide),
   (slugify_canonical.1 "A  b!").2.2.2 'b' (by decide)⟩

theorem dropWhile_eq_self_of_head (p : Char → Bool) (l : List Char)
    (h : ∀ c, l.head? = some c → p c = false) : l.dropWhile p = l := by
  cases l with
  | nil => rfl
  | cons c rest =>
    rw [List.dropWhile_cons, if_neg]
    rw [h c List.head?_cons]
    simp

theorem map_asciiLower_id : ∀ l : List Char, l.all slugChar = true →
    l.map asciiLower = l := by
  intro l
  induction l with
  | nil => intro _; rfl
  | cons c rest ih =>
    intro h
    rw [List.all_cons, Bool.and_eq_true] at h
    rw [List.map_cons, slugChar_asciiLower h.1, ih h.2]

theorem trimChars_eq_self (l : List Char) (h : l.all slugChar = true) :
    trimChars l = l := by
  have hmem : ∀ c ∈ l, isSpace c = false := by
    intro c hc
    exact slugChar_not_space (List.all_eq_true.mp h c hc)
  unfold trimChars
  rw [dropWhile_eq_self_of_head _ _ (fun c hc =>
    hmem c (List.mem_of_mem_head? (Option.mem_def.mpr hc)))]
  rw [dropWhile_eq_self_of_head _ _ (fun c hc =>
    hmem c (List.mem_reverse.mp (List.mem_of_mem_head? (Option.mem_def.mpr hc))))]
  exact List.reverse_reverse l

theorem replHyph_eq_self : ∀ l : List Char, l.all slugChar = true →
    NoDoubleHyphen l →
    replHyph l false = l ∧
      (l.head? ≠ some '-' → replHyph l true = l) := by
  intro l
  induction l with
  | nil => intro _ _; exact ⟨rfl, fun _ => rfl⟩
  | cons c rest ih =>
    intro hall hnd
    rw [List.all_cons, Bool.and_eq_true] at hall
    have htail := hnd.tail
    rw [NoDoubleHyphen, List.chain'_cons'] at hnd
    obtain ⟨hbound, _⟩ := hnd
    have hcs := hall.1
    unfold slugChar at hcs
    rw [Bool.or_eq_true] at hcs
    constructor
    · unfold replHyph
      rcases hcs with hal | hhy
      · rw [if_pos hal, (ih hall.2 htail).1]
      · rw [decide_eq_true_eq] at hhy
        subst hhy
        rw [if_neg (by decide)]
        rw [if_neg (by simp : ¬(false = true))]
        have hrest : rest.head? ≠ some '-' := by
          intro hrh
          exact hbound '-' (Option.mem_def.mpr hrh) ⟨rfl, rfl⟩
        rw [(ih hall.2 htail).2 hrest]
    · intro hhd
      unfold replHyph
      rcases hcs with hal | hhy
      · rw [if_pos hal, (ih hall.2 htail).1]
      · rw [decide_eq_true_eq] at hhy
        subst hhy
        exact absurd List.head?_cons hhd

theorem stripHyph_eq_self (l : List Char)
    (hh : ∀ c, l.head? = some c → c ≠ '-')
    (hl : ∀ c, l.getLast? = some c → c ≠ '-') : stripHyph l = l := by
  unfold stripHyph
  rw [dropWhile_eq_self_of_head (· = '-') l (fun c hc => by
    have := hh c hc
    simpa using this)]
  rw [dropWhile_eq_self_of_head (· = '-') l.reverse (fun c hc => by
    rw [List.head?_reverse] at hc
    have := hl c hc
    simpa using this)]
  exact List.reverse_reverse l

/-- C9: `slugify` is idempotent — its output is a fixed point, so an
already-canonical slug passed back through the generator is unchanged. -/
theorem slugify_idempotent (s : String) : slugify (slugify s) = slugify s := by
  obtain ⟨hall, hnd, hhd, hlast⟩ := slug_props s
  apply String.ext
  rw [slugify_data]
  rw [map_asciiLower_id _ hall]
  rw [trimChars_eq_self _ hall]
  rw [(replHyph_eq_self _ hall hnd).1]
  rw [stripHyph_eq_self _ hhd hlast]

/-- Witness for `slugify_idempotent`: not required (no hypotheses), but the
fixed point is checkable on a concrete value. -/
theorem slugify_idempotent_witness :
    slugify (slugify "Hello, World!  Foo") = slugify "Hello, World!  Foo" :=
  slugify_idempotent "Hello, World!  Foo"
